import Mathlib

/-!
Verification of the OCI-artifact content store of this repository
(`pkg/libartifact` and `pkg/libartifact/store`): the reference parser, the
storage-reference parser, the blob MIME-type sniffer, and the artifact store
operations Add / Remove / List / Inspect.

The store implementation itself ships outside the test tree, so every
definition below is a shallow model written from the specification of those
components (marked `Modelled from the spec:`); the unit tests of the
repository pin down the concrete behaviours the model must reproduce.
Cryptographic hashing is idealized as collision-free: a digest value keeps
the hashed object as a component, so distinct contents yield distinct
digests, exactly the property the specification relies on.
-/

set_option linter.unusedVariables false

/-- Byte strings: file and blob contents are sequences of bytes, each byte a
natural number. -/
abbrev Bytes := List Nat

/-! ## Reference parser (`NewArtifactReference`) -/

/-- Modelled from the spec: errors carry a message; `ErrTaggedAndDigested` is
a distinguishable sentinel matched programmatically (Go `errors.Is`), so the
model records whether an error is that sentinel. -/
structure GoError where
  message : String
  isErrTaggedAndDigested : Bool
deriving DecidableEq, Repr

/-- Lowercase hexadecimal digit, as in an image ID or digest. -/
def isHexChar (c : Char) : Bool := c.isDigit || (('a' ≤ c) && (c ≤ 'f'))

/-- Modelled from the spec: a bare 64-character hexadecimal string looks like
a raw image ID and is rejected with a dedicated error. -/
def is64Hex (s : String) : Bool := (s.data.length == 64) && s.data.all isHexChar

/-- Lowercase letter or digit, the characters a repository path component is
built from. -/
def isLowerAlnum (c : Char) : Bool := (('a' ≤ c) && (c ≤ 'z')) || c.isDigit

/-- Characters allowed inside a repository path component. -/
def isPathChar (c : Char) : Bool :=
  isLowerAlnum c || c = '.' || c = '_' || c = '-'

/-- Modelled from the spec: one path component of a repository name must be
nonempty, made of lowercase alphanumerics and the separators dot,
underscore, dash, and must begin and end with an alphanumeric. -/
def validPathComponent : List Char → Bool
  | [] => false
  | c :: rest =>
    isLowerAlnum c && (c :: rest).all isPathChar
      && isLowerAlnum ((c :: rest).getLastD c)

/-- Split a character list at the first occurrence of a separator, returning
the parts before and after it, or nothing when the separator is absent. -/
def splitFirst (sep : Char) : List Char → Option (List Char × List Char)
  | [] => none
  | c :: rest =>
    if c = sep then some ([], rest)
    else
      match splitFirst sep rest with
      | none => none
      | some (a, b) => some (c :: a, b)

/-- Split a character list at the last occurrence of a separator. -/
def splitLast (sep : Char) (cs : List Char) : Option (List Char × List Char) :=
  match splitFirst sep cs.reverse with
  | none => none
  | some (a, b) => some (b.reverse, a.reverse)

/-- Modelled from the spec: the host part of a registry domain. -/
def validHost (cs : List Char) : Bool :=
  (!cs.isEmpty) && cs.all (fun c => isLowerAlnum c || c = '.' || c = '-')

/-- Modelled from the spec: a registry domain is a host optionally followed
by a colon and a numeric port. -/
def validDomain (cs : List Char) : Bool :=
  match splitFirst ':' cs with
  | none => validHost cs
  | some (h, p) => validHost h && (!p.isEmpty) && p.all Char.isDigit

/-- Modelled from the spec: the first component of a name counts as a
registry only when it contains a dot or a port colon or is `localhost`;
otherwise the name has no registry component. -/
def looksLikeDomain (cs : List Char) : Bool :=
  cs.contains '.' || cs.contains ':' || cs == "localhost".data

/-- Modelled from the spec: a tag is nonempty, starts with an alphanumeric
or underscore and continues with alphanumerics, underscore, dot or dash. -/
def validTag : List Char → Bool
  | [] => false
  | c :: rest =>
    (c.isAlphanum || c = '_')
      && rest.all (fun d => d.isAlphanum || d = '_' || d = '.' || d = '-')

/-- Modelled from the spec: a digest suffix must be a full
`sha256:` + 64-hexadecimal-character string; a partial digest is malformed. -/
def validDigestStr (cs : List Char) : Bool :=
  match splitFirst ':' cs with
  | none => false
  | some (alg, hex) =>
    (alg == "sha256".data) && (hex.length == 64) && hex.all isHexChar

/-- The four syntactic components of a reference-like string: optional
registry domain, repository path, optional tag, optional digest. -/
structure RawRef where
  domain : Option (List Char)
  path : List Char
  tag : Option (List Char)
  digestPart : Option (List Char)
deriving DecidableEq, Repr

/-- Modelled from the spec: decompose a reference string. The digest follows
the first at-sign; the first slash-separated component is the domain when it
looks like one; the tag follows the last colon of the remainder provided no
slash follows it. -/
def splitRef (s : String) : RawRef :=
  let cs := s.data
  let basedg : List Char × Option (List Char) :=
    match splitFirst '@' cs with
    | none => (cs, none)
    | some (b, d) => (b, some d)
  let base := basedg.1
  let domrest : Option (List Char) × List Char :=
    match splitFirst '/' base with
    | none => (none, base)
    | some (d, r) => if looksLikeDomain d then (some d, r) else (none, base)
  let rest := domrest.2
  let pathtag : List Char × Option (List Char) :=
    match splitLast ':' rest with
    | none => (rest, none)
    | some (p, t) => if t.contains '/' then (rest, none) else (p, some t)
  { domain := domrest.1, path := pathtag.1, tag := pathtag.2,
    digestPart := basedg.2 }

/-- Modelled from the spec: all syntactic component checks of the OCI
reference-name grammar. -/
def validRaw (r : RawRef) : Bool :=
  (match r.domain with
   | some d => validDomain d
   | none => true)
  && ((r.path.splitOn '/').all validPathComponent)
  && (match r.tag with
      | some t => validTag t
      | none => true)
  && (match r.digestPart with
      | some d => validDigestStr d
      | none => true)

/-- Modelled from the spec: parse a reference string and keep it only when
every component is grammatically valid. -/
def parseValidRef (s : String) : Option RawRef :=
  let r := splitRef s
  if validRaw r then some r else none

/-- Modelled from the spec: the error returned for a grammatically invalid
reference string. -/
def errInvalidFormat : GoError := ⟨"invalid reference format", false⟩

/-- Modelled from the spec: the error returned for a bare 64-character
hexadecimal string. -/
def err64Hex : GoError := ⟨"cannot specify 64-byte hexadecimal strings", false⟩

/-- Modelled from the spec: the error returned for a name lacking a registry
component. -/
def errMustBeCanonical : GoError := ⟨"repository name must be canonical", false⟩

/-- Modelled from the spec: the sentinel error for a reference carrying both
a tag and a digest. -/
def errTaggedAndDigested : GoError :=
  ⟨"cannot use tag and digest at the same time", true⟩

/-- Modelled from the spec: a validated artifact reference wrapping its
normalized string form; a missing tag is defaulted to `latest`. -/
structure ArtifactReference where
  name : String
deriving DecidableEq, Repr

/-- Modelled from the spec: `NewArtifactReference` rejects a raw 64-character
hexadecimal image ID, then applies the reference grammar, then demands a
registry component (canonical name), then rejects a reference carrying both
a tag and a digest, and finally defaults a missing tag to `latest`. -/
def NewArtifactReference (s : String) : Except GoError ArtifactReference :=
  if is64Hex s then .error err64Hex
  else
    match parseValidRef s with
    | none => .error errInvalidFormat
    | some r =>
      if r.domain.isNone then .error errMustBeCanonical
      else if r.tag.isSome && r.digestPart.isSome then
        .error errTaggedAndDigested
      else if r.tag.isNone && r.digestPart.isNone then
        .ok ⟨s ++ ":latest"⟩
      else .ok ⟨s⟩

/-- Modelled from the spec: a storage reference holds either a successfully
parsed reference or the raw input as an unresolved possible-digest
candidate; exactly one of the two is populated. -/
structure ArtifactStorageReference where
  ref : Option ArtifactReference
  possibleDigest : String
deriving DecidableEq, Repr

/-- Modelled from the spec: `NewArtifactStorageReference` fails only on an
empty input or a tag+digest conflict; any other parse failure stores the raw
string verbatim as a possible-digest candidate. -/
def NewArtifactStorageReference (s : String) :
    Except GoError ArtifactStorageReference :=
  if s = "" then .error ⟨"nameOrDigest cannot be empty", false⟩
  else
    match NewArtifactReference s with
    | .ok a => .ok ⟨some a, ""⟩
    | .error e =>
      if e.isErrTaggedAndDigested then .error e
      else .ok ⟨none, s⟩

/-- Whether an `Except` value is an error. -/
def isErrB {ε α : Type} : Except ε α → Bool
  | .error _ => true
  | .ok _ => false

/-! ## Blob MIME-type sniffer (`determineBlobMIMEType`) -/

/-- Modelled from the spec: one file to be added, with mutually exclusive
content sources: a file path (empty string when unset, as for the Go zero
value) or a reader, modelled by the byte stream it will yield, plus the file
name used for the title annotations and extension-based sniffing. -/
structure ArtifactBlob where
  blobFilePath : String
  blobReader : Option Bytes
  fileName : String
deriving DecidableEq, Repr

/-- The content-sniffing window is the first 512 bytes. -/
def sniffLen : Nat := 512

/-- Does the byte string start with the given magic signature? -/
def hasMagic (magic w : Bytes) : Bool := magic.isPrefixOf w

/-- Bytes of an ASCII string, for signature comparisons. -/
def asciiBytes (s : String) : Bytes := s.data.map Char.toNat

/-- Is the byte plausible in a plain-text file? -/
def isTextByte (n : Nat) : Bool :=
  n == 9 || n == 10 || n == 13 || ((32 ≤ n) && (n < 127))

/-- Modelled from the spec: byte-signature content sniffing over the first
window of content (a simplified model of Go `http.DetectContentType`
covering the signatures the tests exercise); an all-text window classifies
as plain text and anything else is the ambiguous octet-stream answer. -/
def detectContentType (w : Bytes) : String :=
  if hasMagic [255, 216, 255] w then "image/jpeg"
  else if hasMagic [137, 80, 78, 71, 13, 10, 26, 10] w then "image/png"
  else if hasMagic (asciiBytes "<!DOCTYPE html") w then
    "text/html; charset=utf-8"
  else if w.all isTextByte then "text/plain; charset=utf-8"
  else "application/octet-stream"

/-- Modelled from the spec: filename-extension based classification used as
a fallback when signature sniffing is ambiguous. -/
def extContentType (fileName : String) : Option String :=
  if "json".data.isSuffixOf fileName.data then some "application/json"
  else if "txt".data.isSuffixOf fileName.data then
    some "text/plain; charset=utf-8"
  else none

/-- Modelled from the spec: classify content by byte signatures over the
sniffing window, falling back to the filename extension only when the
signature answer is the ambiguous octet-stream. -/
def sniffContentType (w : Bytes) (fileName : String) : String :=
  let t := detectContentType w
  if t = "application/octet-stream" then
    match extContentType fileName with
    | some e => e
    | none => t
  else t

/-- Modelled from the spec: `determineBlobMIMEType` demands exactly one of
the file path and the reader; for a file path it sniffs the first window of
the file (read through the ambient file system, modelled as a partial map
from paths to contents) and returns no reader; for a reader it returns the
sniffed bytes prepended to the unread remainder together with the type. -/
def determineBlobMIMEType (fs : String → Option Bytes) (b : ArtifactBlob) :
    Except String (Option Bytes × String) :=
  if (b.blobFilePath != "") == b.blobReader.isSome then
    .error "Artifact.BlobFile or Artifact.BlobReader must be provided"
  else
    match b.blobReader with
    | some stream =>
      .ok (some (stream.take sniffLen ++ stream.drop sniffLen),
        sniffContentType (stream.take sniffLen) b.fileName)
    | none =>
      match fs b.blobFilePath with
      | none => .error ("opening blob file " ++ b.blobFilePath)
      | some content => .ok (none, sniffContentType (content.take sniffLen) b.fileName)

/-! ## Manifests, digests and the artifact model -/

/-- The per-layer title annotations key holding the original filename. -/
def annotationTitle : String := "org.opencontainers.image.title"

/-- Modelled from the spec: one manifest layer, carrying the blob digest
(idealized SHA-256, represented by the hashed content itself), the size in
bytes, the sniffed MIME type and the layer annotations; Go maps are
modelled as association lists. -/
structure Descriptor where
  mediaType : String
  digest : Bytes
  size : Nat
  annotations : List (String × String)
deriving DecidableEq, Repr

/-- Modelled from the spec: an OCI artifact manifest with its artifact type,
ordered layer sequence and manifest-level annotations. -/
structure Manifest where
  artifactType : String
  layers : List Descriptor
  annotations : List (String × String)
deriving DecidableEq, Repr

/-- Render annotations pairs into the canonical serialization. -/
def encPairs : List (String × String) → String
  | [] => ""
  | (k, v) :: rest => k ++ "=" ++ v ++ ";" ++ encPairs rest

/-- Render a byte string into the canonical serialization. -/
def encBytes : Bytes → String
  | [] => ""
  | n :: rest => toString n ++ "." ++ encBytes rest

/-- Render one layer into the canonical serialization. -/
def encLayer (d : Descriptor) : String :=
  d.mediaType ++ "|" ++ encBytes d.digest ++ "|" ++ toString d.size ++ "|"
    ++ encPairs d.annotations

/-- Render the layer sequence into the canonical serialization. -/
def encLayers : List Descriptor → String
  | [] => ""
  | d :: rest => encLayer d ++ "&" ++ encLayers rest

/-- Modelled from the spec: the canonical serialization of a manifest, the
input of the manifest-digest computation. -/
def encManifest (m : Manifest) : String :=
  m.artifactType ++ "#" ++ encLayers m.layers ++ "#" ++ encPairs m.annotations

/-- Modelled from the spec: a manifest digest is the SHA-256 of the
canonical manifest serialization. The hash is idealized as collision-free,
so the digest value keeps the hashed manifest as a component next to its
encoded hexadecimal form; distinct manifests therefore have distinct
digests, which is exactly what the spec asserts of the real hash. -/
structure ManifestDigest where
  manifest : Manifest
  encoded : String
deriving DecidableEq, Repr

/-- Digest a manifest: keep the manifest and its encoded form. -/
def mkManifestDigest (m : Manifest) : ManifestDigest := ⟨m, encManifest m⟩

/-- The string form of a manifest digest, algorithm included. -/
def ManifestDigest.render (d : ManifestDigest) : String :=
  "sha256:" ++ d.encoded

/-- Modelled from the spec: the materialized view of one stored artifact. -/
structure Artifact where
  name : String
  manifest : Manifest
deriving DecidableEq, Repr

/-- Modelled from the spec: the artifact digest is recomputed from the
manifest, never stored separately. -/
def Artifact.getDigest (a : Artifact) : ManifestDigest :=
  mkManifestDigest a.manifest

/-- Modelled from the spec: total size is the sum of the layer sizes. -/
def Artifact.totalSizeBytes (a : Artifact) : Nat :=
  (a.manifest.layers.map Descriptor.size).sum

/-! ## The store state -/

/-- Modelled from the spec: one persisted index entry, a reference name
paired with the manifest digest it points at. -/
structure IndexEntry where
  name : String
  digest : ManifestDigest
deriving DecidableEq, Repr

/-- Modelled from the spec: the on-disk state of one artifact store: the
index (an ordered entry list), the content-addressed blob directory
(a collection of blob contents, addressed by their idealized digests, here
the contents themselves) and the manifest blobs living in the same
content-addressed space. -/
structure StoreState where
  index : List IndexEntry
  blobCAS : List Bytes
  manifests : List Manifest
deriving DecidableEq, Repr

/-- A fresh store: empty index, no blobs. -/
def emptyStore : StoreState := ⟨[], [], []⟩

/-- The index entries carrying the given name. -/
def countNamed (idx : List IndexEntry) (n : String) : Nat :=
  (idx.filter (fun e => e.name = n)).length

/-- The first index entry carrying the given name. -/
def findNamed (idx : List IndexEntry) (n : String) : Option IndexEntry :=
  idx.find? (fun e => e.name = n)

/-- Modelled from the spec: the index entry for a name is inserted or
overwritten to point at the new manifest digest. -/
def upsert (idx : List IndexEntry) (n : String) (d : ManifestDigest) :
    List IndexEntry :=
  if idx.any (fun e => e.name = n) then
    idx.map (fun e => if e.name = n then ⟨n, d⟩ else e)
  else idx ++ [⟨n, d⟩]

/-! ## Store operations -/

/-- Modelled from the spec: store-level blob inputs are described by the
file name (used for the title annotations and extension sniffing) and the
full byte content the file or reader yields. -/
structure BlobContent where
  fileName : String
  content : Bytes
deriving DecidableEq, Repr

/-- Modelled from the spec: `AddOptions` with the append and replace flags,
an optional artifact MIME type (empty string when unset, defaulted) and
manifest-level annotations. -/
structure AddOptions where
  append : Bool
  replace : Bool
  artifactMIMEType : String
  annotations : List (String × String)
deriving DecidableEq, Repr

/-- Modelled from the spec: the artifact type used when the option is
unset. -/
def defaultArtifactType : String := "application/vnd.unknown.artifact.v1"

/-- Modelled from the spec: convert one input blob into a manifest layer:
digest over the full content (idealized SHA-256: the content itself), the
size in bytes, the sniffed MIME type and the title annotations set to the
file name. -/
def blobToLayer (b : BlobContent) : Descriptor :=
  { mediaType := sniffContentType (b.content.take sniffLen) b.fileName
    digest := b.content
    size := b.content.length
    annotations := [(annotationTitle, b.fileName)] }

/-- Modelled from the spec: write each blob to content-addressed storage in
input order, skipping a blob whose digest is already present (dedup); a
failing write (modelled by the ambient predicate on contents) aborts with
an error, keeping the blobs already written. Returns the resulting blob
directory and the outcome. -/
def writeBlobs (wOk : Bytes → Bool) (cas : List Bytes) :
    List BlobContent → List Bytes × Except String Unit
  | [] => (cas, .ok ())
  | b :: rest =>
    if b.content ∈ cas then writeBlobs wOk cas rest
    else if wOk b.content then writeBlobs wOk (b.content :: cas) rest
    else (cas, .error "writing blob to store")

/-- Modelled from the spec: for an append, load the existing manifest for
the name from content-addressed storage (absence of the entry makes the add
behave like a fresh add; a missing manifest blob for a present entry is an
integrity error); otherwise start from nothing. -/
def loadBase (st : StoreState) (ref : ArtifactReference) (opts : AddOptions) :
    Except String (Option Manifest) :=
  if opts.append then
    match findNamed st.index ref.name with
    | some e =>
      if e.digest.manifest ∈ st.manifests then .ok (some e.digest.manifest)
      else .error "reading manifest: blob not found"
    | none => .ok none
  else .ok none

/-- Modelled from the spec: build the new manifest: on append the new layers
follow the existing layer sequence and the artifact type is kept unless
overridden; otherwise only the new blobs become layers and the artifact
type defaults when unset. Manifest-level annotations come from the
options. -/
def buildManifest (base : Option Manifest) (blobs : List BlobContent)
    (opts : AddOptions) : Manifest :=
  let newLayers := blobs.map blobToLayer
  match base with
  | some bm =>
    { artifactType :=
        if opts.artifactMIMEType = "" then bm.artifactType
        else opts.artifactMIMEType
      layers := bm.layers ++ newLayers
      annotations := opts.annotations }
  | none =>
    { artifactType :=
        if opts.artifactMIMEType = "" then defaultArtifactType
        else opts.artifactMIMEType
      layers := newLayers
      annotations := opts.annotations }

/-- Modelled from the spec: `Add` rejects append together with replace,
loads the append base, writes the layer blobs (any failure aborts before
the index is touched), builds and digests the manifest, writes the manifest
blob into the same content-addressed space (dedup applies; a failure again
aborts before the index is touched) and only then upserts and persists the
index entry, returning the new manifest digest. Write failures are modelled
by the ambient predicates `wOk` (layer blobs) and `mOk` (manifest blobs). -/
def ArtifactStore.Add (st : StoreState) (wOk : Bytes → Bool)
    (mOk : Manifest → Bool) (ref : ArtifactReference)
    (blobs : List BlobContent) (opts : AddOptions) :
    StoreState × Except String ManifestDigest :=
  if opts.append && opts.replace then
    (st, .error "append and replace options are mutually exclusive")
  else
    match loadBase st ref opts with
    | .error msg => (st, .error msg)
    | .ok base =>
      match writeBlobs wOk st.blobCAS blobs with
      | (cas1, .error msg) => ({ st with blobCAS := cas1 }, .error msg)
      | (cas1, .ok _) =>
        let m := buildManifest base blobs opts
        let d := mkManifestDigest m
        if m ∈ st.manifests then
          ({ index := upsert st.index ref.name d, blobCAS := cas1,
             manifests := st.manifests }, .ok d)
        else if mOk m then
          ({ index := upsert st.index ref.name d, blobCAS := cas1,
             manifests := m :: st.manifests }, .ok d)
        else ({ st with blobCAS := cas1 }, .error "writing manifest to store")

/-- Does the index entry digest render exactly to the candidate string? -/
def matchesExact (cand : String) (e : IndexEntry) : Bool :=
  ManifestDigest.render e.digest == cand

/-- String prefix test over the underlying characters. -/
def strHasPfx (p s : String) : Bool := p.data.isPrefixOf s.data

/-- Is the candidate string a prefix of the encoded digest hexadecimal? -/
def prefixMatches (cand : String) (e : IndexEntry) : Bool :=
  strHasPfx cand e.digest.encoded

/-- Modelled from the spec: resolve a storage reference against the index:
a parsed name reference matches entries by exact name; a possible-digest
candidate matches the entry whose digest equals the candidate exactly, or,
when no exact match exists, the unique entry whose encoded digest
hexadecimal has the candidate as a prefix; an ambiguous prefix and an empty
match both fail. -/
def resolveRef (idx : List IndexEntry) (r : ArtifactStorageReference) :
    Except String IndexEntry :=
  match r.ref with
  | some a =>
    match findNamed idx a.name with
    | some e => .ok e
    | none => .error "artifact not found"
  | none =>
    match idx.filter (matchesExact r.possibleDigest) with
    | [e] => .ok e
    | _ :: _ :: _ => .error "multiple artifacts found with digest"
    | [] =>
      match idx.filter (prefixMatches r.possibleDigest) with
      | [e] => .ok e
      | [] => .error "artifact not found"
      | _ => .error "multiple artifacts found with digest prefix"

/-- Modelled from the spec: `Remove` resolves the reference, deletes exactly
the matched index entry, persists the index and returns the digest of the
removed entry; blob content is not deleted. -/
def ArtifactStore.Remove (st : StoreState) (r : ArtifactStorageReference) :
    StoreState × Except String ManifestDigest :=
  match resolveRef st.index r with
  | .error msg => (st, .error msg)
  | .ok e => ({ st with index := st.index.erase e }, .ok e.digest)

/-- Modelled from the spec: materialize one index entry into an artifact by
loading its manifest blob from content-addressed storage; a missing
manifest blob is a hard integrity error. -/
def materializeEntry (st : StoreState) (e : IndexEntry) :
    Except String Artifact :=
  if e.digest.manifest ∈ st.manifests then .ok ⟨e.name, e.digest.manifest⟩
  else .error "reading manifest: blob not found"

/-- Materialize a list of index entries, failing on the first missing
manifest. -/
def materializeAll (st : StoreState) : List IndexEntry →
    Except String (List Artifact)
  | [] => .ok []
  | e :: rest =>
    match materializeEntry st e with
    | .error msg => .error msg
    | .ok a =>
      match materializeAll st rest with
      | .error msg => .error msg
      | .ok rs => .ok (a :: rs)

/-- Modelled from the spec: `Inspect` resolves like `Remove` and returns the
single matched artifact fully materialized. -/
def ArtifactStore.Inspect (st : StoreState) (r : ArtifactStorageReference) :
    Except String Artifact :=
  match resolveRef st.index r with
  | .error msg => .error msg
  | .ok e => materializeEntry st e

/-- Modelled from the spec: `List` loads the index and materializes every
entry; a missing manifest blob for an entry is a hard error, not silently
skipped. -/
def ArtifactStore.List (st : StoreState) : Except String (List Artifact) :=
  materializeAll st st.index

/-- The always-succeeding blob-write environment. -/
def allWrites : Bytes → Bool := fun _ => true

/-- The always-succeeding manifest-write environment. -/
def allManifestWrites : Manifest → Bool := fun _ => true

/-- The title annotations value of a layer, when present. -/
def layerTitle (d : Descriptor) : Option String :=
  d.annotations.lookup annotationTitle

/-- Manifest blob deduplication in content-addressed storage: writing an
already-present manifest is skipped. -/
def addManifestCAS (ms : List Manifest) (m : Manifest) : List Manifest :=
  if m ∈ ms then ms else m :: ms

/-! ## General lemmas -/

theorem writeBlobs_allOk (cas : List Bytes) (l : List BlobContent) :
    ∃ cas1, writeBlobs allWrites cas l = (cas1, Except.ok ()) := by
  induction l generalizing cas with
  | nil => exact ⟨cas, rfl⟩
  | cons b rest ih =>
    by_cases h : b.content ∈ cas
    · simpa [writeBlobs, h] using ih cas
    · simpa [writeBlobs, h, allWrites] using ih (b.content :: cas)

theorem writeBlobs_fails (wOk : Bytes → Bool) (cas : List Bytes)
    (l : List BlobContent)
    (h : ∃ b ∈ l, wOk b.content = false ∧ b.content ∉ cas) :
    ∃ msg, (writeBlobs wOk cas l).2 = Except.error msg := by
  induction l generalizing cas with
  | nil => simp at h
  | cons b rest ih =>
    obtain ⟨w, hw, hwf, hwc⟩ := h
    by_cases hmem : b.content ∈ cas
    · rcases List.mem_cons.mp hw with heq | htl
      · exact absurd hmem (heq ▸ hwc)
      · simpa [writeBlobs, hmem] using ih cas ⟨w, htl, hwf, hwc⟩
    · by_cases hok : wOk b.content = true
      · rcases List.mem_cons.mp hw with heq | htl
        · rw [heq] at hwf; rw [hok] at hwf; exact absurd hwf (by simp)
        · have hwc' : w.content ∉ b.content :: cas := by
            intro hc
            rcases List.mem_cons.mp hc with hc1 | hc2
            · rw [hc1] at hwf; rw [hok] at hwf; exact absurd hwf (by simp)
            · exact hwc hc2
          simpa [writeBlobs, hmem, hok] using
            ih (b.content :: cas) ⟨w, htl, hwf, hwc'⟩
      · have hok' : wOk b.content = false := by
          cases hx : wOk b.content
          · rfl
          · exact absurd hx hok
        exact ⟨"writing blob to store", by simp [writeBlobs, hmem, hok']⟩

theorem add_ok_spec (st : StoreState) (ref : ArtifactReference)
    (blobs : List BlobContent) (opts : AddOptions) (base : Option Manifest)
    (hco : (opts.append && opts.replace) = false)
    (hbase : loadBase st ref opts = .ok base) :
    ∃ cas1,
      ArtifactStore.Add st allWrites allManifestWrites ref blobs opts =
        ({ index := upsert st.index ref.name
             (mkManifestDigest (buildManifest base blobs opts)),
           blobCAS := cas1,
           manifests := addManifestCAS st.manifests
             (buildManifest base blobs opts) },
         .ok (mkManifestDigest (buildManifest base blobs opts))) := by
  obtain ⟨cas1, hw⟩ := writeBlobs_allOk st.blobCAS blobs
  refine ⟨cas1, ?_⟩
  by_cases hm : buildManifest base blobs opts ∈ st.manifests <;>
    simp [ArtifactStore.Add, hco, hbase, hw, hm, addManifestCAS,
      allManifestWrites]

theorem loadBase_empty (ref : ArtifactReference) (opts : AddOptions) :
    loadBase emptyStore ref opts = .ok none := by
  cases h : opts.append <;> simp [loadBase, findNamed, emptyStore, h]

theorem findNamed_upsert (idx : List IndexEntry) (n : String)
    (d : ManifestDigest) :
    findNamed (upsert idx n d) n = some ⟨n, d⟩ := by
  by_cases h : idx.any (fun e => e.name = n)
  · simp only [upsert, h, if_pos]
    induction idx with
    | nil => simp at h
    | cons e rest ih =>
      by_cases he : e.name = n
      · simp [findNamed, he]
      · have h' : rest.any (fun e => e.name = n) = true := by
          simp only [List.any_cons] at h
          rcases Bool.or_eq_true_iff.mp h with h1 | h2
          · exact absurd (by simpa using h1) he
          · exact h2
        simpa [findNamed, he] using ih h'
  · simp only [upsert, h, if_neg]
    induction idx with
    | nil => simp [findNamed]
    | cons e rest ih =>
      simp only [List.any_cons, Bool.or_eq_true_iff, not_or] at h
      have he : ¬(e.name = n) := by simpa using h.1
      simpa [findNamed, he] using ih (by simpa using h.2)

theorem countNamed_overwrite (idx : List IndexEntry) (n : String)
    (d : ManifestDigest) :
    countNamed (idx.map fun e => if e.name = n then ⟨n, d⟩ else e) n
      = countNamed idx n := by
  unfold countNamed
  induction idx with
  | nil => rfl
  | cons e rest ih =>
    by_cases he : e.name = n <;> simp [he, ih]

theorem countNamed_upsert (idx : List IndexEntry) (n : String)
    (d : ManifestDigest) (h : countNamed idx n ≤ 1) :
    countNamed (upsert idx n d) n = 1 := by
  by_cases ha : idx.any (fun e => e.name = n)
  · have hge : 1 ≤ countNamed idx n := by
      obtain ⟨e, he, hen⟩ := List.any_eq_true.mp ha
      have hmem : e ∈ idx.filter (fun e => e.name = n) :=
        List.mem_filter.mpr ⟨he, hen⟩
      have := List.length_pos_of_mem hmem
      unfold countNamed
      omega
    have h2 := countNamed_overwrite idx n d
    simp only [upsert, ha, if_true]
    omega
  · have ha' : idx.any (fun e => e.name = n) = false := by simpa using ha
    have h0 : (idx.filter (fun e => e.name = n)).length = 0 := by
      rw [List.length_eq_zero, List.filter_eq_nil_iff]
      intro e he
      rcases List.any_eq_false.mp ha' e he with h1
      simpa using h1
    simp only [upsert, ha', Bool.false_eq_true, if_false]
    unfold countNamed
    rw [List.filter_append, List.length_append]
    simp [h0]

theorem layerTitle_blobToLayer (b : BlobContent) :
    layerTitle (blobToLayer b) = some b.fileName := by
  simp [layerTitle, blobToLayer, List.lookup]

theorem mem_addManifestCAS (ms : List Manifest) (m : Manifest) :
    m ∈ addManifestCAS ms m := by
  unfold addManifestCAS
  by_cases h : m ∈ ms <;> simp [h]

theorem materializeAll_congr (st1 st2 : StoreState)
    (h : st1.manifests = st2.manifests) (l : List IndexEntry) :
    materializeAll st1 l = materializeAll st2 l := by
  induction l with
  | nil => rfl
  | cons e rest ih => simp [materializeAll, materializeEntry, h, ih]

/-! ## Claim theorems -/

/-- C4: for every store state, write environment, reference, blob list and
remaining option fields, `Add` with both `Append` and `Replace` set returns
the mutual-exclusion error and leaves the store untouched. -/
theorem add_append_replace_conflict (st : StoreState) (wOk : Bytes → Bool)
    (mOk : Manifest → Bool) (ref : ArtifactReference)
    (blobs : List BlobContent) (mt : String)
    (anns : List (String × String)) :
    ArtifactStore.Add st wOk mOk ref blobs ⟨true, true, mt, anns⟩
      = (st, .error "append and replace options are mutually exclusive") := by
  simp [ArtifactStore.Add]

/-- C1: adding an artifact with N named blobs to a fresh store makes `List`
return exactly one artifact whose manifest has exactly N layers, whose
total size is the sum of the blob sizes, and whose per-layer title
annotations are exactly the input file names. -/
theorem add_list_round_trip (ref : ArtifactReference)
    (blobs : List BlobContent) (opts : AddOptions)
    (hco : (opts.append && opts.replace) = false) :
    ∃ st1 m,
      ArtifactStore.Add emptyStore allWrites allManifestWrites ref blobs opts
        = (st1, .ok (mkManifestDigest m)) ∧
      ArtifactStore.List st1 = .ok [⟨ref.name, m⟩] ∧
      m.layers.length = blobs.length ∧
      Artifact.totalSizeBytes ⟨ref.name, m⟩
        = (blobs.map (fun b => b.content.length)).sum ∧
      m.layers.map layerTitle = blobs.map (fun b => some b.fileName) := by
  obtain ⟨cas1, hAdd⟩ :=
    add_ok_spec emptyStore ref blobs opts none hco (loadBase_empty ref opts)
  refine ⟨_, buildManifest none blobs opts, hAdd, ?_, ?_, ?_, ?_⟩
  · simp [ArtifactStore.List, materializeAll, materializeEntry, upsert,
      addManifestCAS, mkManifestDigest, emptyStore]
  · simp [buildManifest]
  · simp only [Artifact.totalSizeBytes, buildManifest, List.map_map]
    have hmap : List.map (Descriptor.size ∘ blobToLayer) blobs
        = List.map (fun b => b.content.length) blobs :=
      List.map_congr_left fun b _ => by simp [blobToLayer, Function.comp]
    rw [hmap]
  · simp only [buildManifest, List.map_map]
    exact List.map_congr_left fun b _ => layerTitle_blobToLayer b

/-- C10: an `Add` whose options carry annotations stores them as the
manifest-level annotations of the created artifact, and `Inspect` returns a
manifest whose annotations are exactly those pairs. -/
theorem add_annotations_inspect (st : StoreState) (ref : ArtifactReference)
    (blobs : List BlobContent) (opts : AddOptions) (base : Option Manifest)
    (hco : (opts.append && opts.replace) = false)
    (hbase : loadBase st ref opts = .ok base)
    (hann : opts.annotations ≠ []) :
    ∃ st1 d a,
      ArtifactStore.Add st allWrites allManifestWrites ref blobs opts
        = (st1, .ok d) ∧
      ArtifactStore.Inspect st1 ⟨some ref, ""⟩ = .ok a ∧
      a.manifest.annotations = opts.annotations ∧
      (∀ kv, kv ∈ a.manifest.annotations ↔ kv ∈ opts.annotations) := by
  obtain ⟨cas1, hAdd⟩ := add_ok_spec st ref blobs opts base hco hbase
  refine ⟨_, _, ⟨ref.name, buildManifest base blobs opts⟩, hAdd, ?_, ?_, ?_⟩
  · simp only [ArtifactStore.Inspect, resolveRef, findNamed_upsert]
    simp [materializeEntry, mkManifestDigest, mem_addManifestCAS]
  · cases base <;> simp [buildManifest]
  · intro kv
    cases base <;> simp [buildManifest]

/-- C2: appending J new blobs to an existing artifact succeeds, leaves
exactly one index entry under the name, whose layer sequence is the
original layers in order followed by the new layers, and whose manifest
digest differs from the original. -/
theorem add_append_spec (st : StoreState) (ref : ArtifactReference)
    (e : IndexEntry) (blobs : List BlobContent) (mt : String)
    (anns : List (String × String))
    (hfind : findNamed st.index ref.name = some e)
    (hcnt : countNamed st.index ref.name ≤ 1)
    (hman : e.digest.manifest ∈ st.manifests)
    (hne : blobs ≠ []) :
    ∃ st1 d,
      ArtifactStore.Add st allWrites allManifestWrites ref blobs
        ⟨true, false, mt, anns⟩ = (st1, .ok d) ∧
      countNamed st1.index ref.name = 1 ∧
      findNamed st1.index ref.name = some ⟨ref.name, d⟩ ∧
      d.manifest.layers
        = e.digest.manifest.layers ++ blobs.map blobToLayer ∧
      d ≠ e.digest := by
  have hbase :
      loadBase st ref ⟨true, false, mt, anns⟩
        = .ok (some e.digest.manifest) := by
    simp [loadBase, hfind, hman]
  obtain ⟨cas1, hAdd⟩ := add_ok_spec st ref blobs ⟨true, false, mt, anns⟩
    (some e.digest.manifest) rfl hbase
  refine ⟨_, _, hAdd, ?_, ?_, ?_, ?_⟩
  · exact countNamed_upsert _ _ _ hcnt
  · exact findNamed_upsert _ _ _
  · simp [mkManifestDigest, buildManifest]
  · intro heq
    have hm : (mkManifestDigest
        (buildManifest (some e.digest.manifest) blobs
          ⟨true, false, mt, anns⟩)).manifest = e.digest.manifest :=
      congrArg ManifestDigest.manifest heq
    have hl := congrArg Manifest.layers hm
    simp only [mkManifestDigest, buildManifest] at hl
    have hlen := congrArg List.length hl
    simp only [List.length_append, List.length_map] at hlen
    have : blobs.length = 0 := by omega
    exact hne (List.length_eq_zero.mp this)

/-- C3: replacing an existing artifact succeeds, leaves exactly one index
entry under the name with only the new blobs as layers, and (when the new
blob contents differ from the stored layer digests) a manifest digest
different from the previous one. -/
theorem add_replace_spec (st : StoreState) (ref : ArtifactReference)
    (e : IndexEntry) (blobs : List BlobContent) (mt : String)
    (anns : List (String × String))
    (hfind : findNamed st.index ref.name = some e)
    (hcnt : countNamed st.index ref.name ≤ 1)
    (hnew : blobs.map (fun b => b.content)
      ≠ e.digest.manifest.layers.map Descriptor.digest) :
    ∃ st1 d,
      ArtifactStore.Add st allWrites allManifestWrites ref blobs
        ⟨false, true, mt, anns⟩ = (st1, .ok d) ∧
      countNamed st1.index ref.name = 1 ∧
      findNamed st1.index ref.name = some ⟨ref.name, d⟩ ∧
      d.manifest.layers = blobs.map blobToLayer ∧
      d ≠ e.digest := by
  have hbase : loadBase st ref ⟨false, true, mt, anns⟩ = .ok none := by
    simp [loadBase]
  obtain ⟨cas1, hAdd⟩ := add_ok_spec st ref blobs ⟨false, true, mt, anns⟩
    none rfl hbase
  refine ⟨_, _, hAdd, ?_, ?_, ?_, ?_⟩
  · exact countNamed_upsert _ _ _ hcnt
  · exact findNamed_upsert _ _ _
  · simp [mkManifestDigest, buildManifest]
  · intro heq
    have hm : (mkManifestDigest
        (buildManifest none blobs ⟨false, true, mt, anns⟩)).manifest
          = e.digest.manifest := congrArg ManifestDigest.manifest heq
    have hl := congrArg Manifest.layers hm
    simp only [mkManifestDigest, buildManifest] at hl
    have hd := congrArg (List.map Descriptor.digest) hl
    simp only [List.map_map] at hd
    have hmap : List.map (Descriptor.digest ∘ blobToLayer) blobs
        = List.map (fun b => b.content) blobs :=
      List.map_congr_left fun b _ => by simp [blobToLayer, Function.comp]
    rw [hmap] at hd
    exact hnew hd

/-- C5: removing by a possible-digest candidate deletes exactly the unique
exactly-matching entry, or, failing that, the unique prefix-matching entry,
returning its digest; when no exact match exists and the prefix matches no
entry or more than one, `Remove` errors and removes nothing. -/
theorem remove_by_digest_spec (st : StoreState) (cand : String) :
    (∀ e, st.index.filter (matchesExact cand) = [e] →
      ArtifactStore.Remove st ⟨none, cand⟩
        = ({ st with index := st.index.erase e }, .ok e.digest)) ∧
    (∀ e, st.index.filter (matchesExact cand) = [] →
      st.index.filter (prefixMatches cand) = [e] →
      ArtifactStore.Remove st ⟨none, cand⟩
        = ({ st with index := st.index.erase e }, .ok e.digest)) ∧
    (st.index.filter (matchesExact cand) = [] →
      (st.index.filter (prefixMatches cand)).length ≠ 1 →
      ∃ msg, ArtifactStore.Remove st ⟨none, cand⟩ = (st, .error msg)) := by
  refine ⟨?_, ?_, ?_⟩
  · intro e he
    simp [ArtifactStore.Remove, resolveRef, he]
  · intro e h0 hp
    simp [ArtifactStore.Remove, resolveRef, h0, hp]
  · intro h0 hlen
    cases hp : st.index.filter (prefixMatches cand) with
    | nil =>
      exact ⟨"artifact not found",
        by simp [ArtifactStore.Remove, resolveRef, h0, hp]⟩
    | cons a rest =>
      cases rest with
      | nil => exact absurd (by simp [hp]) hlen
      | cons b rest2 =>
        exact ⟨"multiple artifacts found with digest prefix",
          by simp [ArtifactStore.Remove, resolveRef, h0, hp]⟩

/-- C6: whenever `Add` returns an error (in particular when writing any
needed blob fails, which always produces an error), the index — and hence
everything observable through `List` — is exactly what it was before the
call; the index is only updated on success, as the final step. -/
theorem add_atomicity (st : StoreState) (wOk : Bytes → Bool)
    (mOk : Manifest → Bool) (ref : ArtifactReference)
    (blobs : List BlobContent) (opts : AddOptions) :
    (∀ msg,
      (ArtifactStore.Add st wOk mOk ref blobs opts).2 = .error msg →
        (ArtifactStore.Add st wOk mOk ref blobs opts).1.index = st.index ∧
        ArtifactStore.List (ArtifactStore.Add st wOk mOk ref blobs opts).1
          = ArtifactStore.List st) ∧
    ((∃ b ∈ blobs, wOk b.content = false ∧ b.content ∉ st.blobCAS) →
      ∃ msg, (ArtifactStore.Add st wOk mOk ref blobs opts).2
        = .error msg) ∧
    (∀ st1 d,
      ArtifactStore.Add st wOk mOk ref blobs opts = (st1, .ok d) →
        st1.index = upsert st.index ref.name d) := by
  have hmain :
      (∀ msg,
        (ArtifactStore.Add st wOk mOk ref blobs opts).2 = .error msg →
          (ArtifactStore.Add st wOk mOk ref blobs opts).1.index = st.index ∧
          (ArtifactStore.Add st wOk mOk ref blobs opts).1.manifests
            = st.manifests) ∧
      (∀ st1 d,
        ArtifactStore.Add st wOk mOk ref blobs opts = (st1, .ok d) →
          st1.index = upsert st.index ref.name d) := by
    by_cases hcf : (opts.append && opts.replace) = true
    · constructor
      · intro msg hmsg
        simp [ArtifactStore.Add, hcf]
      · intro st1 d hok
        simp [ArtifactStore.Add, hcf] at hok
    · have hcf' : (opts.append && opts.replace) = false := by
        cases h : (opts.append && opts.replace)
        · rfl
        · exact absurd h hcf
      cases hlb : loadBase st ref opts with
      | error m =>
        constructor
        · intro msg hmsg
          simp [ArtifactStore.Add, hcf', hlb]
        · intro st1 d hok
          simp [ArtifactStore.Add, hcf', hlb] at hok
      | ok base =>
        cases hwb : writeBlobs wOk st.blobCAS blobs with
        | mk cas1 wres =>
          cases wres with
          | error m =>
            constructor
            · intro msg hmsg
              simp [ArtifactStore.Add, hcf', hlb, hwb]
            · intro st1 d hok
              simp [ArtifactStore.Add, hcf', hlb, hwb] at hok
          | ok u =>
            by_cases hm : buildManifest base blobs opts ∈ st.manifests
            · constructor
              · intro msg hmsg
                simp [ArtifactStore.Add, hcf', hlb, hwb, hm] at hmsg
              · intro st1 d hok
                simp [ArtifactStore.Add, hcf', hlb, hwb, hm] at hok
                rw [← hok.2, ← hok.1]
            · by_cases hmo : mOk (buildManifest base blobs opts) = true
              · constructor
                · intro msg hmsg
                  simp [ArtifactStore.Add, hcf', hlb, hwb, hm, hmo] at hmsg
                · intro st1 d hok
                  simp [ArtifactStore.Add, hcf', hlb, hwb, hm, hmo] at hok
                  rw [← hok.2, ← hok.1]
              · have hmo' : mOk (buildManifest base blobs opts) = false := by
                  cases h : mOk (buildManifest base blobs opts)
                  · rfl
                  · exact absurd h hmo
                constructor
                · intro msg hmsg
                  simp [ArtifactStore.Add, hcf', hlb, hwb, hm, hmo']
                · intro st1 d hok
                  simp [ArtifactStore.Add, hcf', hlb, hwb, hm, hmo'] at hok
  refine ⟨?_, ?_, hmain.2⟩
  · intro msg hmsg
    obtain ⟨hidx, hmans⟩ := hmain.1 msg hmsg
    refine ⟨hidx, ?_⟩
    show materializeAll _ _ = materializeAll _ _
    rw [hidx]
    exact materializeAll_congr _ _ hmans _
  · intro hex
    by_cases hcf : (opts.append && opts.replace) = true
    · exact ⟨"append and replace options are mutually exclusive",
        by simp [ArtifactStore.Add, hcf]⟩
    · have hcf' : (opts.append && opts.replace) = false := by
        cases h : (opts.append && opts.replace)
        · rfl
        · exact absurd h hcf
      cases hlb : loadBase st ref opts with
      | error m => exact ⟨m, by simp [ArtifactStore.Add, hcf', hlb]⟩
      | ok base =>
        obtain ⟨msg, hwe⟩ := writeBlobs_fails wOk st.blobCAS blobs hex
        cases hwb : writeBlobs wOk st.blobCAS blobs with
        | mk cas1 wres =>
          rw [hwb] at hwe
          simp only at hwe
          rw [hwe] at hwb
          exact ⟨msg, by simp [ArtifactStore.Add, hcf', hlb, hwb]⟩

/-- C9: `determineBlobMIMEType` errors when both or neither content source
is set; a file-path source yields no reader on success; a reader source
yields a reader holding the complete original contents, the sniffed window
prepended to the unread remainder. -/
theorem determineBlobMIMEType_spec (fs : String → Option Bytes)
    (b : ArtifactBlob) :
    (b.blobFilePath ≠ "" → b.blobReader.isSome = true →
      determineBlobMIMEType fs b
        = .error "Artifact.BlobFile or Artifact.BlobReader must be provided") ∧
    (b.blobFilePath = "" → b.blobReader = none →
      determineBlobMIMEType fs b
        = .error "Artifact.BlobFile or Artifact.BlobReader must be provided") ∧
    (∀ r mt, b.blobReader = none →
      determineBlobMIMEType fs b = .ok (r, mt) → r = none) ∧
    (∀ stream, b.blobFilePath = "" → b.blobReader = some stream →
      determineBlobMIMEType fs b
        = .ok (some stream,
            sniffContentType (stream.take sniffLen) b.fileName)) := by
  refine ⟨?_, ?_, ?_, ?_⟩
  · intro hp hr
    have hp' : (b.blobFilePath != "") = true := by
      simpa using hp
    simp [determineBlobMIMEType, hp', hr]
  · intro hp hr
    simp [determineBlobMIMEType, hp, hr]
  · intro r mt hr hok
    by_cases hp : b.blobFilePath = ""
    · simp [determineBlobMIMEType, hp, hr] at hok
    · have hp' : (b.blobFilePath != "") = true := by simpa using hp
      cases hf : fs b.blobFilePath with
      | none => simp [determineBlobMIMEType, hp', hr, hf] at hok
      | some content =>
        simp [determineBlobMIMEType, hp', hr, hf] at hok
        exact hok.1.symm
  · intro stream hp hr
    simp [determineBlobMIMEType, hp, hr, List.take_append_drop]

/-- C7: `NewArtifactReference` fails exactly for a bare 64-hexadecimal
string (with its dedicated error), a grammatically malformed string
(empty string and partial digest included, with the invalid-format error),
a name without a registry component (with the canonical error) and a name
carrying both a tag and a digest (with the `ErrTaggedAndDigested`
sentinel); on success with neither tag nor digest the reference string is
the input with `:latest` appended. -/
theorem newArtifactReference_spec (s : String) :
    (isErrB (NewArtifactReference s) = true ↔
      (is64Hex s = true ∨ parseValidRef s = none ∨
        (∃ r, parseValidRef s = some r ∧
          (r.domain = none ∨
            (r.tag.isSome = true ∧ r.digestPart.isSome = true))))) ∧
    (s = "" → NewArtifactReference s = .error errInvalidFormat) ∧
    (is64Hex s = true → NewArtifactReference s = .error err64Hex) ∧
    (is64Hex s = false → parseValidRef s = none →
      NewArtifactReference s = .error errInvalidFormat) ∧
    (∀ r, is64Hex s = false → parseValidRef s = some r → r.domain = none →
      NewArtifactReference s = .error errMustBeCanonical) ∧
    (∀ r, is64Hex s = false → parseValidRef s = some r →
      r.domain.isSome = true → r.tag.isSome = true →
      r.digestPart.isSome = true →
      NewArtifactReference s = .error errTaggedAndDigested) ∧
    (∀ a r, NewArtifactReference s = .ok a → parseValidRef s = some r →
      r.tag = none → r.digestPart = none → a.name = s ++ ":latest") := by
  refine ⟨?_, ?_, ?_, ?_, ?_, ?_, ?_⟩
  · by_cases h64 : is64Hex s
    · simp [NewArtifactReference, h64, isErrB]
    · cases hp : parseValidRef s with
      | none => simp [NewArtifactReference, h64, hp, isErrB]
      | some r =>
        cases hdom : r.domain with
        | none => simp [NewArtifactReference, h64, hp, hdom, isErrB]
        | some dm =>
          by_cases htd : (r.tag.isSome && r.digestPart.isSome) = true
          · rcases Bool.and_eq_true_iff.mp htd with ⟨ht, hd⟩
            simp [NewArtifactReference, h64, hp, hdom, htd, isErrB, ht, hd]
          · have htd' : (r.tag.isSome && r.digestPart.isSome) = false := by
              cases h : (r.tag.isSome && r.digestPart.isSome)
              · rfl
              · exact absurd h htd
            have himp : r.tag.isSome = true → r.digestPart = none := by
              intro ht
              cases hdp : r.digestPart with
              | none => rfl
              | some dp => rw [ht, hdp] at htd'; simp at htd'
            by_cases hnn : (r.tag.isNone && r.digestPart.isNone) = true
            · simp [NewArtifactReference, h64, hp, hdom, htd', hnn, isErrB]
              exact himp
            · have hnn' : (r.tag.isNone && r.digestPart.isNone) = false := by
                cases h : (r.tag.isNone && r.digestPart.isNone)
                · rfl
                · exact absurd h hnn
              simp [NewArtifactReference, h64, hp, hdom, htd', hnn', isErrB]
              exact himp
  · intro he
    subst he
    rfl
  · intro h64
    simp [NewArtifactReference, h64]
  · intro h64 hp
    simp [NewArtifactReference, h64, hp]
  · intro r h64 hp hdom
    simp [NewArtifactReference, h64, hp, hdom]
  · intro r h64 hp hdomS htag hdig
    cases hdom : r.domain with
    | none => rw [hdom] at hdomS; simp at hdomS
    | some dm => simp [NewArtifactReference, h64, hp, hdom, htag, hdig]
  · intro a r hok hp htag hdig
    by_cases h64 : is64Hex s
    · simp [NewArtifactReference, h64] at hok
    · cases hdom : r.domain with
      | none => simp [NewArtifactReference, h64, hp, hdom] at hok
      | some dm =>
        simp [NewArtifactReference, h64, hp, hdom, htag, hdig] at hok
        rw [← hok]

/-- C8: `NewArtifactStorageReference` fails exactly for the empty string or
a tag+digest conflict; any other reference-parse failure yields a
possible-digest result holding the raw input verbatim with no reference;
and in every successful result exactly one of the reference and the
possible-digest is populated. -/
theorem newArtifactStorageReference_spec (s : String) :
    (NewArtifactStorageReference ""
      = .error ⟨"nameOrDigest cannot be empty", false⟩) ∧
    (∀ e, s ≠ "" → NewArtifactReference s = .error e →
      e.isErrTaggedAndDigested = true →
      NewArtifactStorageReference s = .error e) ∧
    (∀ e, s ≠ "" → NewArtifactReference s = .error e →
      e.isErrTaggedAndDigested = false →
      NewArtifactStorageReference s = .ok ⟨none, s⟩) ∧
    (∀ a, s ≠ "" → NewArtifactReference s = .ok a →
      NewArtifactStorageReference s = .ok ⟨some a, ""⟩) ∧
    (isErrB (NewArtifactStorageReference s) = true ↔
      (s = "" ∨ ∃ e, NewArtifactReference s = .error e ∧
        e.isErrTaggedAndDigested = true)) ∧
    (∀ r, NewArtifactStorageReference s = .ok r →
      ((r.ref.isSome = true ∧ r.possibleDigest = "") ∨
       (r.ref = none ∧ r.possibleDigest ≠ ""))) := by
  refine ⟨by rfl, ?_, ?_, ?_, ?_, ?_⟩
  · intro e hs he hsent
    simp [NewArtifactStorageReference, hs, he, hsent]
  · intro e hs he hsent
    simp [NewArtifactStorageReference, hs, he, hsent]
  · intro a hs ha
    simp [NewArtifactStorageReference, hs, ha]
  · by_cases hs : s = ""
    · subst hs
      simp [NewArtifactStorageReference, isErrB]
    · cases ha : NewArtifactReference s with
      | ok a => simp [NewArtifactStorageReference, hs, ha, isErrB]
      | error e =>
        by_cases hsent : e.isErrTaggedAndDigested = true
        · simp [NewArtifactStorageReference, hs, ha, hsent, isErrB]
        · have hsent' : e.isErrTaggedAndDigested = false := by
            cases h : e.isErrTaggedAndDigested
            · rfl
            · exact absurd h hsent
          simp [NewArtifactStorageReference, hs, ha, hsent', isErrB]
  · intro r hr
    by_cases hs : s = ""
    · subst hs
      simp [NewArtifactStorageReference] at hr
    · cases ha : NewArtifactReference s with
      | ok a =>
        simp [NewArtifactStorageReference, hs, ha] at hr
        rw [← hr]
        simp
      | error e =>
        by_cases hsent : e.isErrTaggedAndDigested = true
        · simp [NewArtifactStorageReference, hs, ha, hsent] at hr
        · have hsent' : e.isErrTaggedAndDigested = false := by
            cases h : e.isErrTaggedAndDigested
            · rfl
            · exact absurd h hsent
          simp [NewArtifactStorageReference, hs, ha, hsent'] at hr
          rw [← hr]
          simp [hs]

/-! ## Witnesses -/

theorem add_list_round_trip_witness :
    ∃ st1 m,
      ArtifactStore.Add emptyStore allWrites allManifestWrites
          ⟨"quay.io/test/artifact:v1"⟩
          [⟨"file1.txt", [104, 105]⟩, ⟨"file2.bin", [1, 2, 3]⟩]
          ⟨false, false, "application/vnd.test+type", []⟩
        = (st1, .ok (mkManifestDigest m)) ∧
      ArtifactStore.List st1 = .ok [⟨"quay.io/test/artifact:v1", m⟩] ∧
      m.layers.length = 2 ∧
      Artifact.totalSizeBytes ⟨"quay.io/test/artifact:v1", m⟩ = 5 ∧
      m.layers.map layerTitle = [some "file1.txt", some "file2.bin"] :=
  add_list_round_trip ⟨"quay.io/test/artifact:v1"⟩
    [⟨"file1.txt", [104, 105]⟩, ⟨"file2.bin", [1, 2, 3]⟩]
    ⟨false, false, "application/vnd.test+type", []⟩ rfl

theorem add_append_spec_witness :
    ∃ st1 d,
      ArtifactStore.Add
          ⟨[⟨"quay.io/test/a:v1", mkManifestDigest ⟨"t", [], []⟩⟩], [],
            [⟨"t", [], []⟩]⟩
          allWrites allManifestWrites ⟨"quay.io/test/a:v1"⟩
          [⟨"new.txt", [2]⟩] ⟨true, false, "", []⟩ = (st1, .ok d) ∧
      countNamed st1.index "quay.io/test/a:v1" = 1 ∧
      findNamed st1.index "quay.io/test/a:v1" = some ⟨"quay.io/test/a:v1", d⟩ ∧
      d.manifest.layers = [blobToLayer ⟨"new.txt", [2]⟩] ∧
      d ≠ mkManifestDigest ⟨"t", [], []⟩ :=
  add_append_spec
    ⟨[⟨"quay.io/test/a:v1", mkManifestDigest ⟨"t", [], []⟩⟩], [],
      [⟨"t", [], []⟩]⟩
    ⟨"quay.io/test/a:v1"⟩ ⟨"quay.io/test/a:v1", mkManifestDigest ⟨"t", [], []⟩⟩
    [⟨"new.txt", [2]⟩] "" [] rfl (by decide) (by decide) (by decide)

theorem add_replace_spec_witness :
    ∃ st1 d,
      ArtifactStore.Add
          ⟨[⟨"quay.io/test/a:v1", mkManifestDigest ⟨"t", [], []⟩⟩], [],
            [⟨"t", [], []⟩]⟩
          allWrites allManifestWrites ⟨"quay.io/test/a:v1"⟩
          [⟨"replaced.txt", [9]⟩] ⟨false, true, "application/vnd.replaced+type", []⟩
        = (st1, .ok d) ∧
      countNamed st1.index "quay.io/test/a:v1" = 1 ∧
      findNamed st1.index "quay.io/test/a:v1" = some ⟨"quay.io/test/a:v1", d⟩ ∧
      d.manifest.layers = [blobToLayer ⟨"replaced.txt", [9]⟩] ∧
      d ≠ mkManifestDigest ⟨"t", [], []⟩ :=
  add_replace_spec
    ⟨[⟨"quay.io/test/a:v1", mkManifestDigest ⟨"t", [], []⟩⟩], [],
      [⟨"t", [], []⟩]⟩
    ⟨"quay.io/test/a:v1"⟩ ⟨"quay.io/test/a:v1", mkManifestDigest ⟨"t", [], []⟩⟩
    [⟨"replaced.txt", [9]⟩] "application/vnd.replaced+type" []
    (by decide) (by decide) (by decide)

theorem remove_by_digest_spec_witness :
    ArtifactStore.Remove
        ⟨[⟨"a", ⟨⟨"t", [], []⟩, "abc"⟩⟩, ⟨"b", ⟨⟨"u", [], []⟩, "abd"⟩⟩], [], []⟩
        ⟨none, "sha256:abc"⟩
      = (⟨[⟨"b", ⟨⟨"u", [], []⟩, "abd"⟩⟩], [], []⟩, .ok ⟨⟨"t", [], []⟩, "abc"⟩) :=
  (remove_by_digest_spec
      ⟨[⟨"a", ⟨⟨"t", [], []⟩, "abc"⟩⟩, ⟨"b", ⟨⟨"u", [], []⟩, "abd"⟩⟩], [], []⟩
      "sha256:abc").1
    ⟨"a", ⟨⟨"t", [], []⟩, "abc"⟩⟩ (by decide)

theorem add_atomicity_witness :
    ∃ msg,
      (ArtifactStore.Add emptyStore (fun _ => false) allManifestWrites
        ⟨"quay.io/test/a:v1"⟩ [⟨"f", [1]⟩] ⟨false, false, "", []⟩).2
          = .error msg :=
  (add_atomicity emptyStore (fun _ => false) allManifestWrites
      ⟨"quay.io/test/a:v1"⟩ [⟨"f", [1]⟩] ⟨false, false, "", []⟩).2.1
    ⟨⟨"f", [1]⟩, by decide, rfl, by decide⟩

theorem newArtifactReference_spec_witness :
    NewArtifactReference
        "84ddb405470e733d0202d6946e48fc75a7ee231337bdeb31a8579407a7052d9e"
      = .error err64Hex ∧
    NewArtifactReference "quay.io/machine-os/podman@sha256:8b96f36deaf1d2"
      = .error errInvalidFormat ∧
    NewArtifactReference "machine-os:latest" = .error errMustBeCanonical ∧
    NewArtifactReference
        "quay.io/machine-os/podman:latest@sha256:8b96f36deaf1d2713858eebd9ef2fee9610df8452fbd083bbfa7dca66d6fcd0b"
      = .error errTaggedAndDigested ∧
    (ArtifactReference.mk "quay.io/machine-os/podman:latest").name
      = "quay.io/machine-os/podman" ++ ":latest" :=
  ⟨(newArtifactReference_spec
      "84ddb405470e733d0202d6946e48fc75a7ee231337bdeb31a8579407a7052d9e").2.2.1
      rfl,
   (newArtifactReference_spec
      "quay.io/machine-os/podman@sha256:8b96f36deaf1d2").2.2.2.1 rfl rfl,
   (newArtifactReference_spec "machine-os:latest").2.2.2.2.1
      ⟨none, "machine-os".data, some "latest".data, none⟩ rfl rfl rfl,
   (newArtifactReference_spec
      "quay.io/machine-os/podman:latest@sha256:8b96f36deaf1d2713858eebd9ef2fee9610df8452fbd083bbfa7dca66d6fcd0b").2.2.2.2.2.1
      ⟨some "quay.io".data, "machine-os/podman".data, some "latest".data,
        some "sha256:8b96f36deaf1d2713858eebd9ef2fee9610df8452fbd083bbfa7dca66d6fcd0b".data⟩
      rfl rfl rfl rfl rfl,
   (newArtifactReference_spec "quay.io/machine-os/podman").2.2.2.2.2.2
      ⟨"quay.io/machine-os/podman:latest"⟩
      ⟨some "quay.io".data, "machine-os/podman".data, none, none⟩
      rfl rfl rfl rfl⟩

theorem newArtifactStorageReference_spec_witness :
    NewArtifactStorageReference "invalid::reference"
      = .ok ⟨none, "invalid::reference"⟩ ∧
    NewArtifactStorageReference "quay.io/podman/machine-os:5.1"
      = .ok ⟨some ⟨"quay.io/podman/machine-os:5.1"⟩, ""⟩ :=
  ⟨(newArtifactStorageReference_spec "invalid::reference").2.2.1
      errInvalidFormat (by decide) rfl rfl,
   (newArtifactStorageReference_spec "quay.io/podman/machine-os:5.1").2.2.2.1
      ⟨"quay.io/podman/machine-os:5.1"⟩ (by decide) rfl⟩

theorem determineBlobMIMEType_spec_witness :
    determineBlobMIMEType (fun _ => none) ⟨"", some [104, 105], "a.txt"⟩
      = .ok (some [104, 105], "text/plain; charset=utf-8") ∧
    determineBlobMIMEType (fun _ => none) ⟨"", none, "a.txt"⟩
      = .error "Artifact.BlobFile or Artifact.BlobReader must be provided" :=
  ⟨(determineBlobMIMEType_spec (fun _ => none)
      ⟨"", some [104, 105], "a.txt"⟩).2.2.2 [104, 105] rfl rfl,
   (determineBlobMIMEType_spec (fun _ => none) ⟨"", none, "a.txt"⟩).2.1
      rfl rfl⟩

theorem add_annotations_inspect_witness :
    ∃ st1 d a,
      ArtifactStore.Add emptyStore allWrites allManifestWrites
          ⟨"quay.io/test/inspect:v1"⟩ [⟨"file1.txt", [1, 2]⟩]
          ⟨false, false, "application/vnd.test+type",
            [("custom.note", "test-value")]⟩ = (st1, .ok d) ∧
      ArtifactStore.Inspect st1 ⟨some ⟨"quay.io/test/inspect:v1"⟩, ""⟩
        = .ok a ∧
      a.manifest.annotations = [("custom.note", "test-value")] ∧
      (∀ kv, kv ∈ a.manifest.annotations ↔
        kv ∈ [("custom.note", "test-value")]) :=
  add_annotations_inspect emptyStore ⟨"quay.io/test/inspect:v1"⟩
    [⟨"file1.txt", [1, 2]⟩]
    ⟨false, false, "application/vnd.test+type", [("custom.note", "test-value")]⟩
    none rfl rfl (by decide)
